import Mathlib

/-!
Verification of the PyKOB Morse Protocol Engine specification.

The repository sources available here contain the application launchers,
documentation and build scripts; the `pykob` engine modules (`pykob.morse`,
`pykob.internet`, `pykob.kob`) are referenced by the launchers and described
by the documentation but their code is not present.  Definitions for the
engine are therefore modelled from the specification text, as noted in their
doc comments.  The MKOB launcher (`MKOB.pyw`) is embedded from its source.
-/

namespace PyKOB

/-- Modelled from the spec: one Morse element of the `pykob.morse` code
tables (the module's code is not among the available sources). -/
inductive MorseElem : Type
  | dot : MorseElem
  | dash : MorseElem
  deriving DecidableEq, Repr

/-- Units of dot length an element's mark occupies: a dash is three dots. -/
def elemUnits : MorseElem → Nat
  | .dot => 1
  | .dash => 3

/-- Modelled from the spec: a CodeTable is a static bidirectional mapping
between characters and element-pattern templates. -/
abbrev CodeTable := List (Char × List MorseElem)

/-- Modelled from the spec: the International Code table (letters). -/
def internationalTable : CodeTable :=
  [ ('A', [.dot, .dash]),
    ('B', [.dash, .dot, .dot, .dot]),
    ('C', [.dash, .dot, .dash, .dot]),
    ('D', [.dash, .dot, .dot]),
    ('E', [.dot]),
    ('F', [.dot, .dot, .dash, .dot]),
    ('G', [.dash, .dash, .dot]),
    ('H', [.dot, .dot, .dot, .dot]),
    ('I', [.dot, .dot]),
    ('J', [.dot, .dash, .dash, .dash]),
    ('K', [.dash, .dot, .dash]),
    ('L', [.dot, .dash, .dot, .dot]),
    ('M', [.dash, .dash]),
    ('N', [.dash, .dot]),
    ('O', [.dash, .dash, .dash]),
    ('P', [.dot, .dash, .dash, .dot]),
    ('Q', [.dash, .dash, .dot, .dash]),
    ('R', [.dot, .dash, .dot]),
    ('S', [.dot, .dot, .dot]),
    ('T', [.dash]),
    ('U', [.dot, .dot, .dash]),
    ('V', [.dot, .dot, .dot, .dash]),
    ('W', [.dot, .dash, .dash]),
    ('X', [.dash, .dot, .dot, .dash]),
    ('Y', [.dash, .dot, .dash, .dash]),
    ('Z', [.dash, .dash, .dot, .dot]) ]

/-- Modelled from the spec: the American Morse table, restricted to the
letters whose patterns are plain dot/dash sequences (letters with internal
spaces or long dashes are template variants outside this model's alphabet). -/
def americanTable : CodeTable :=
  [ ('A', [.dot, .dash]),
    ('B', [.dash, .dot, .dot, .dot]),
    ('D', [.dash, .dot, .dot]),
    ('E', [.dot]),
    ('F', [.dot, .dash, .dot]),
    ('G', [.dash, .dash, .dot]),
    ('H', [.dot, .dot, .dot, .dot]),
    ('I', [.dot, .dot]),
    ('J', [.dash, .dot, .dash, .dot]),
    ('K', [.dash, .dot, .dash]),
    ('M', [.dash, .dash]),
    ('N', [.dash, .dot]),
    ('P', [.dot, .dot, .dot, .dot, .dot]),
    ('Q', [.dot, .dot, .dash, .dot]),
    ('S', [.dot, .dot, .dot]),
    ('T', [.dash]),
    ('U', [.dot, .dot, .dash]),
    ('V', [.dot, .dot, .dot, .dash]),
    ('W', [.dot, .dash, .dash]),
    ('X', [.dot, .dash, .dot, .dot]) ]

/-- Modelled from the spec: `lookup(symbolSystem, character)` returning an
`Option` of the character's pattern template. -/
def lookupChar (tbl : CodeTable) (c : Char) : Option (List MorseElem) :=
  (tbl.find? (fun cp => cp.1 == c)).map (fun cp => cp.2)

/-- Modelled from the spec: reverse lookup of an accumulated element pattern
in the active CodeTable. -/
def reverseLookup (tbl : CodeTable) (p : List MorseElem) : Option Char :=
  (tbl.find? (fun cp => cp.2 == p)).map (fun cp => cp.1)

/-- Modelled from the spec: SpeedProfile
{dotDurationMs, charSpacingFactor, farnsworthTextSpeedWpm (optional)}. -/
structure SpeedProfile where
  dotMs : Nat
  charSpacingFactor : Nat
  farnsworthWpm : Option Nat
  deriving DecidableEq, Repr

/-- Words-per-minute corresponding to a dot length in ms (PARIS standard:
dot length = 1200 / wpm). -/
def wpmOfDot (d : Nat) : Nat := 1200 / d

/-- Modelled from the spec: the character period (ms per character slot) at a
given text speed; 12000 / wpm ms per character (five characters per word). -/
def charPeriodMs (wpm : Nat) : Nat := 12000 / wpm

/-- Modelled from the spec: the Farnsworth stretch added to each word
boundary: the character period at the (slower) Farnsworth text speed minus
the character period at the base character speed. -/
def farnsworthExtra (p : SpeedProfile) : Nat :=
  match p.farnsworthWpm with
  | none => 0
  | some tw => charPeriodMs tw - charPeriodMs (wpmOfDot p.dotMs)

/-- Inter-character space duration (negative = circuit open), scaled by the
profile's `charSpacingFactor`. -/
def charSpaceDur (p : SpeedProfile) : Int :=
  -((3 * p.charSpacingFactor * p.dotMs : Nat) : Int)

/-- Inter-word space duration, including the Farnsworth stretch. -/
def wordSpaceDur (p : SpeedProfile) : Int :=
  -((7 * p.dotMs + farnsworthExtra p : Nat) : Int)

/-- Modelled from the spec: the diagnostic marker duration emitted for a
skipped character in strict mode; a reserved sentinel magnitude. -/
def markerDuration : Int := 32765

/-- Modelled from the spec: reserved sentinel magnitudes denoting control
meta-events (start/end of transmission, latch/unlatch, diagnostic marker);
distinguished by value, never zero. -/
def isSentinel (x : Int) : Bool :=
  x == 32767 || x == -32767 || x == 32766 || x == -32766 ||
  x == 32765 || x == -32765

/-- The mark (positive duration) of one element at dot length `d`. -/
def elemMark (d : Nat) (e : MorseElem) : Int := ((elemUnits e * d : Nat) : Int)

/-- Encode the tail of a pattern: each further element is preceded by a one
dot intra-character space. -/
def encodeRest (d : Nat) : List MorseElem → List Int
  | [] => []
  | e :: rest => -((d : Nat) : Int) :: elemMark d e :: encodeRest d rest

/-- Modelled from the spec: encode one character template, scaling element
durations to the dot length and separating elements by one-dot spaces. -/
def encodePattern (d : Nat) : List MorseElem → List Int
  | [] => []
  | e :: rest => elemMark d e :: encodeRest d rest

/-- Modelled from the spec: per-character encoded chunks for one word;
an unmapped character is skipped, or (in strict mode) replaced by the
diagnostic marker duration. -/
def charChunks (tbl : CodeTable) (d : Nat) (strict : Bool)
    (w : List Char) : List (List Int) :=
  w.filterMap (fun c =>
    match lookupChar tbl c with
    | some pat => some (encodePattern d pat)
    | none => if strict then some [markerDuration] else none)

/-- Join chunks with a single separator duration between consecutive chunks. -/
def joinSep (sep : Int) : List (List Int) → List Int
  | [] => []
  | x :: rest =>
    match rest with
    | [] => x
    | _ :: _ => x ++ sep :: joinSep sep rest

/-- Modelled from the spec: encode one word, characters separated by the
inter-character space. -/
def encodeWord (tbl : CodeTable) (p : SpeedProfile) (strict : Bool)
    (w : List Char) : List Int :=
  joinSep (charSpaceDur p) (charChunks tbl p.dotMs strict w)

/-- Modelled from the spec: encode a list of words, words separated by the
(possibly Farnsworth-stretched) inter-word space. -/
def encodeTextP (tbl : CodeTable) (p : SpeedProfile) (strict : Bool)
    (ws : List (List Char)) : List Int :=
  joinSep (wordSpaceDur p) (ws.map (encodeWord tbl p strict))

/-- Split a character list into words at spaces. -/
def splitWords : List Char → List (List Char)
  | [] => [[]]
  | c :: rest =>
    match splitWords rest with
    | [] => if c = ' ' then [[], []] else [[c]]
    | w :: ws => if c = ' ' then [] :: w :: ws else (c :: w) :: ws

/-- Modelled from the spec: `encode(text, symbolSystem, speedProfile)`, the
Encoder entry point over a text string. -/
def encodeString (tbl : CodeTable) (p : SpeedProfile) (strict : Bool)
    (s : String) : List Int :=
  encodeTextP tbl p strict (splitWords s.toList)

/-- Classification of a mark duration relative to the running dot estimate. -/
inductive MarkClass : Type
  | dotMark : MarkClass
  | dashMark : MarkClass
  | garbleMark : MarkClass
  deriving DecidableEq, Repr

/-- Classification of a space duration relative to the running dot estimate. -/
inductive SpaceClass : Type
  | intraGap : SpaceClass
  | charGap : SpaceClass
  | wordGap : SpaceClass
  deriving DecidableEq, Repr

/-- Modelled from the spec: mark of at most twice the estimate is a dot, up
to five times is a dash, longer marks are flagged as probable garble. -/
def classifyMark (est m : Nat) : MarkClass :=
  if m ≤ 2 * est then .dotMark
  else if m ≤ 5 * est then .dashMark
  else .garbleMark

/-- Modelled from the spec: space of at most twice the estimate is an
intra-character gap, up to six times an inter-character gap, longer an
inter-word gap. -/
def classifySpace (est n : Nat) : SpaceClass :=
  if n ≤ 2 * est then .intraGap
  else if n ≤ 6 * est then .charGap
  else .wordGap

/-- Modelled from the spec: exponentially weighted blend of the prior
estimate and the observed element's implied dot length. -/
def blendEstimate (est obs : Nat) : Nat := (2 * est + obs) / 3

/-- Clamp a new estimate so one step never moves it by more than half of its
previous value. -/
def clampDelta (est v : Nat) : Nat :=
  min (est + est / 2) (max (est - est / 2) v)

/-- Modelled from the spec: the bounded exponentially weighted update of
`runningDotEstimateMs` after an accepted dot or dash. -/
def updateEstimate (est obs : Nat) : Nat := clampDelta est (blendEstimate est obs)

/-- Modelled from the spec: DecoderState
{runningDotEstimateMs, accumulatedSequence, garble flag}. -/
structure DecoderState where
  est : Nat
  acc : List MorseElem
  garbled : Bool
  deriving DecidableEq, Repr

/-- Initial (`Idle`) decoder state at a given speed. -/
def initState (est0 : Nat) : DecoderState := ⟨est0, [], false⟩

/-- Modelled from the spec: the placeholder glyph emitted for an
unrecognized element pattern. -/
def placeholderChar : Char := '_'

/-- Modelled from the spec: flush the accumulated symbol: reverse-lookup the
pattern, emitting the matched character or the placeholder glyph; clears the
accumulator and the garble flag. -/
def flushSymbol (tbl : CodeTable) (s : DecoderState) : DecoderState × List Char :=
  if s.acc = [] ∧ s.garbled = false then (s, [])
  else if s.garbled then ({ s with acc := [], garbled := false }, [placeholderChar])
  else
    match reverseLookup tbl s.acc with
    | some c => ({ s with acc := [], garbled := false }, [c])
    | none => ({ s with acc := [], garbled := false }, [placeholderChar])

/-- Modelled from the spec: one decode step of the adaptive Decoder on an
incoming duration. -/
def decodeStep (tbl : CodeTable) (s : DecoderState) (dur : Int) :
    DecoderState × List Char :=
  if 0 < dur then
    match classifyMark s.est dur.toNat with
    | .dotMark =>
        ({ s with est := updateEstimate s.est dur.toNat, acc := s.acc ++ [.dot] }, [])
    | .dashMark =>
        ({ s with est := updateEstimate s.est (dur.toNat / 3), acc := s.acc ++ [.dash] }, [])
    | .garbleMark => ({ s with garbled := true }, [])
  else
    match classifySpace s.est dur.natAbs with
    | .intraGap => (s, [])
    | .charGap => flushSymbol tbl s
    | .wordGap => ((flushSymbol tbl s).1, (flushSymbol tbl s).2 ++ [' '])

/-- Run the decoder over a finite duration stream, collecting emitted text. -/
def decodeRun (tbl : CodeTable) : DecoderState → List Int → DecoderState × List Char
  | s, [] => (s, [])
  | s, dur :: rest =>
    ((decodeRun tbl (decodeStep tbl s dur).1 rest).1,
     (decodeStep tbl s dur).2 ++ (decodeRun tbl (decodeStep tbl s dur).1 rest).2)

/-- Run the decoder over a stream and flush the trailing symbol. -/
def decodeFinish (tbl : CodeTable) (s : DecoderState) (ds : List Int) :
    DecoderState × List Char :=
  ((flushSymbol tbl (decodeRun tbl s ds).1).1,
   (decodeRun tbl s ds).2 ++ (flushSymbol tbl (decodeRun tbl s ds).1).2)

/-- Modelled from the spec: the decode-side error taxonomy; the only
boundary rejection is `InvalidDuration`. -/
inductive DecodeError : Type
  | invalidDuration : DecodeError
  deriving DecidableEq, Repr

/-- Modelled from the spec: the decode API boundary: zero-magnitude
durations are rejected with `InvalidDuration`; sentinel control values are
consumed before the adaptive decoder; everything else decodes totally. -/
def decodeAPI (tbl : CodeTable) (est0 : Nat) (ds : List Int) :
    Except DecodeError (List Char) :=
  if ds.any (fun x => x == 0) then .error .invalidDuration
  else .ok (decodeFinish tbl (initState est0) (ds.filter (fun x => !isSentinel x))).2

/-- Modelled from the spec: the idle-flush threshold, a bounded multiple of
the current dot estimate. -/
def idleThreshold (est : Nat) : Nat := 20 * est

/-- Modelled from the spec: the timer-driven `IdleFlush` transition: if the
elapsed time since the last element exceeds the threshold and a partial
symbol is accumulated, force-flush it. -/
def checkIdle (tbl : CodeTable) (elapsed : Nat) (s : DecoderState) :
    DecoderState × List Char :=
  if (s.acc ≠ [] ∨ s.garbled = true) ∧ idleThreshold s.est < elapsed then
    flushSymbol tbl s
  else (s, [])

/-! ### Decode step lemmas -/

lemma updateEstimate_self (d : Nat) : updateEstimate d d = d := by
  unfold updateEstimate clampDelta blendEstimate
  omega

lemma decodeStep_mark_dot (tbl : CodeTable) (s : DecoderState) (m : Nat)
    (h0 : 0 < m) (hc : classifyMark s.est m = .dotMark) :
    decodeStep tbl s ((m : Nat) : Int) =
      ({ s with est := updateEstimate s.est m, acc := s.acc ++ [.dot] }, []) := by
  have hpos : (0 : Int) < ((m : Nat) : Int) := by exact_mod_cast h0
  unfold decodeStep
  rw [if_pos hpos]
  simp only [Int.toNat_natCast, hc]

lemma decodeStep_mark_dash (tbl : CodeTable) (s : DecoderState) (m : Nat)
    (h0 : 0 < m) (hc : classifyMark s.est m = .dashMark) :
    decodeStep tbl s ((m : Nat) : Int) =
      ({ s with est := updateEstimate s.est (m / 3), acc := s.acc ++ [.dash] }, []) := by
  have hpos : (0 : Int) < ((m : Nat) : Int) := by exact_mod_cast h0
  unfold decodeStep
  rw [if_pos hpos]
  simp only [Int.toNat_natCast, hc]

lemma decodeStep_mark_garble (tbl : CodeTable) (s : DecoderState) (m : Nat)
    (h0 : 0 < m) (hc : classifyMark s.est m = .garbleMark) :
    decodeStep tbl s ((m : Nat) : Int) = ({ s with garbled := true }, []) := by
  have hpos : (0 : Int) < ((m : Nat) : Int) := by exact_mod_cast h0
  unfold decodeStep
  rw [if_pos hpos]
  simp only [Int.toNat_natCast, hc]

lemma decodeStep_space_intra (tbl : CodeTable) (s : DecoderState) (n : Nat)
    (hc : classifySpace s.est n = .intraGap) :
    decodeStep tbl s (-((n : Nat) : Int)) = (s, []) := by
  have hneg : ¬ (0 : Int) < -((n : Nat) : Int) := by omega
  unfold decodeStep
  rw [if_neg hneg]
  simp only [Int.natAbs_neg, Int.natAbs_ofNat, hc]

lemma decodeStep_space_char (tbl : CodeTable) (s : DecoderState) (n : Nat)
    (hc : classifySpace s.est n = .charGap) :
    decodeStep tbl s (-((n : Nat) : Int)) = flushSymbol tbl s := by
  have hneg : ¬ (0 : Int) < -((n : Nat) : Int) := by omega
  unfold decodeStep
  rw [if_neg hneg]
  simp only [Int.natAbs_neg, Int.natAbs_ofNat, hc]

lemma decodeStep_space_word (tbl : CodeTable) (s : DecoderState) (n : Nat)
    (hc : classifySpace s.est n = .wordGap) :
    decodeStep tbl s (-((n : Nat) : Int)) =
      ((flushSymbol tbl s).1, (flushSymbol tbl s).2 ++ [' ']) := by
  have hneg : ¬ (0 : Int) < -((n : Nat) : Int) := by omega
  unfold decodeStep
  rw [if_neg hneg]
  simp only [Int.natAbs_neg, Int.natAbs_ofNat, hc]

/-! ### Decode run composition and round-trip lemmas -/

lemma decodeRun_append (tbl : CodeTable) (l1 l2 : List Int) : ∀ s : DecoderState,
    decodeRun tbl s (l1 ++ l2) =
      ((decodeRun tbl (decodeRun tbl s l1).1 l2).1,
       (decodeRun tbl s l1).2 ++ (decodeRun tbl (decodeRun tbl s l1).1 l2).2) := by
  induction l1 with
  | nil => intro s; simp [decodeRun]
  | cons d rest ih => intro s; simp [decodeRun, ih]

lemma classifyMark_dot_self (d : Nat) : classifyMark d (1 * d) = .dotMark := by
  unfold classifyMark
  rw [if_pos (by omega)]

lemma classifyMark_dash_self (d : Nat) (hd : 0 < d) :
    classifyMark d (3 * d) = .dashMark := by
  unfold classifyMark
  rw [if_neg (by omega), if_pos (by omega)]

lemma classifySpace_intra_self (d : Nat) : classifySpace d d = .intraGap := by
  unfold classifySpace
  rw [if_pos (by omega)]

lemma decodeStep_elem (tbl : CodeTable) (d : Nat) (hd : 0 < d)
    (a : List MorseElem) (e : MorseElem) :
    decodeStep tbl ⟨d, a, false⟩ (elemMark d e) = (⟨d, a ++ [e], false⟩, []) := by
  cases e with
  | dot =>
      have h := decodeStep_mark_dot tbl ⟨d, a, false⟩ (1 * d) (by omega)
        (classifyMark_dot_self d)
      rw [show elemMark d .dot = ((1 * d : Nat) : Int) from rfl, h]
      simp [updateEstimate_self, show 1 * d = d from by omega]
  | dash =>
      have h := decodeStep_mark_dash tbl ⟨d, a, false⟩ (3 * d) (by omega)
        (classifyMark_dash_self d hd)
      rw [show elemMark d .dash = ((3 * d : Nat) : Int) from rfl, h]
      simp [show 3 * d / 3 = d from by omega, updateEstimate_self]

lemma decodeRun_encodeRest (tbl : CodeTable) (d : Nat) (hd : 0 < d) :
    ∀ (p a : List MorseElem),
      decodeRun tbl ⟨d, a, false⟩ (encodeRest d p) = (⟨d, a ++ p, false⟩, []) := by
  intro p
  induction p with
  | nil => intro a; simp [encodeRest, decodeRun]
  | cons e rest ih =>
      intro a
      have hintra := decodeStep_space_intra tbl ⟨d, a, false⟩ d
        (classifySpace_intra_self d)
      simp only [encodeRest, decodeRun, hintra, decodeStep_elem tbl d hd a e,
        ih (a ++ [e]), List.nil_append, List.append_assoc, List.singleton_append]

lemma decodeRun_encodePattern (tbl : CodeTable) (d : Nat) (hd : 0 < d)
    (p : List MorseElem) :
    decodeRun tbl (initState d) (encodePattern d p) = (⟨d, p, false⟩, []) := by
  cases p with
  | nil => simp [encodePattern, decodeRun, initState]
  | cons e rest =>
      simp only [encodePattern, decodeRun, initState]
      simp only [show (⟨d, [], false⟩ : DecoderState) = ⟨d, ([] : List MorseElem), false⟩ from rfl,
        decodeStep_elem tbl d hd [] e, decodeRun_encodeRest tbl d hd rest [e],
        List.nil_append, List.singleton_append, List.append_nil]

lemma flushSymbol_found (tbl : CodeTable) (s : DecoderState) (c : Char)
    (hg : s.garbled = false) (hne : s.acc ≠ [])
    (hrl : reverseLookup tbl s.acc = some c) :
    flushSymbol tbl s = ({ s with acc := [], garbled := false }, [c]) := by
  unfold flushSymbol
  rw [if_neg (by simp [hne]), if_neg (by simp [hg]), hrl]

/-! ### Durations produced by the encoder are nonzero and non-sentinel -/

lemma mem_encodeRest (d : Nat) (p : List MorseElem) :
    ∀ x ∈ encodeRest d p, x = -((d : Nat) : Int) ∨ ∃ e, x = elemMark d e := by
  induction p with
  | nil => simp [encodeRest]
  | cons e rest ih =>
      intro x hx
      simp only [encodeRest, List.mem_cons] at hx
      rcases hx with rfl | rfl | hx
      · left; rfl
      · right; exact ⟨e, rfl⟩
      · exact ih x hx

lemma mem_encodePattern (d : Nat) (p : List MorseElem) :
    ∀ x ∈ encodePattern d p, x = -((d : Nat) : Int) ∨ ∃ e, x = elemMark d e := by
  cases p with
  | nil => simp [encodePattern]
  | cons e rest =>
      intro x hx
      simp only [encodePattern, List.mem_cons] at hx
      rcases hx with rfl | hx
      · right; exact ⟨e, rfl⟩
      · exact mem_encodeRest d rest x hx

lemma encodePattern_ok (d : Nat) (hd : 0 < d) (hle : d ≤ 4096)
    (p : List MorseElem) :
    ∀ x ∈ encodePattern d p, ¬ x = 0 ∧ isSentinel x = false := by
  intro x hx
  rcases mem_encodePattern d p x hx with rfl | ⟨e, rfl⟩
  · constructor
    · omega
    · simp only [isSentinel, Bool.or_eq_false_iff, beq_eq_false_iff_ne, ne_eq]
      omega
  · have hu : elemUnits e = 1 ∨ elemUnits e = 3 := by cases e <;> simp [elemUnits]
    unfold elemMark
    constructor
    · rcases hu with h | h <;> rw [h] <;> omega
    · simp only [isSentinel, Bool.or_eq_false_iff, beq_eq_false_iff_ne, ne_eq]
      rcases hu with h | h <;> rw [h] <;> omega

lemma decodeAPI_encodePattern (tbl : CodeTable) (d : Nat) (hd : 0 < d)
    (hle : d ≤ 4096) (p : List MorseElem) (c : Char)
    (hp : p ≠ []) (hrl : reverseLookup tbl p = some c) :
    decodeAPI tbl d (encodePattern d p) = .ok [c] := by
  have hok := encodePattern_ok d hd hle p
  have hany : (encodePattern d p).any (fun x => x == 0) = false := by
    rw [List.any_eq_false]
    intro x hx
    simp only [beq_iff_eq]
    exact (hok x hx).1
  have hfilt : (encodePattern d p).filter (fun x => !isSentinel x) = encodePattern d p := by
    rw [List.filter_eq_self]
    intro x hx
    simp [(hok x hx).2]
  unfold decodeAPI
  rw [hany]
  simp only [Bool.false_eq_true, if_false]
  rw [hfilt]
  unfold decodeFinish
  simp only [decodeRun_encodePattern tbl d hd p]
  rw [flushSymbol_found tbl ⟨d, p, false⟩ c rfl hp hrl]
  simp

/-- Both tables are well-formed: no entry is the space character, forward
lookup finds each entry's own pattern, reverse lookup finds each pattern's
own character (patterns are pairwise distinct), and no pattern is empty. -/
lemma intl_facts : ∀ cp ∈ internationalTable,
    cp.1 ≠ ' ' ∧ lookupChar internationalTable cp.1 = some cp.2 ∧
    reverseLookup internationalTable cp.2 = some cp.1 ∧ cp.2 ≠ [] := by decide

lemma amer_facts : ∀ cp ∈ americanTable,
    cp.1 ≠ ' ' ∧ lookupChar americanTable cp.1 = some cp.2 ∧
    reverseLookup americanTable cp.2 = some cp.1 ∧ cp.2 ≠ [] := by decide

lemma charChunks_single (tbl : CodeTable) (d : Nat) (strict : Bool)
    (c : Char) (pat : List MorseElem) (hlu : lookupChar tbl c = some pat) :
    charChunks tbl d strict [c] = [encodePattern d pat] := by
  simp [charChunks, List.filterMap_cons, hlu]

lemma encodeString_single (tbl : CodeTable) (p : SpeedProfile) (c : Char)
    (pat : List MorseElem) (hc : c ≠ ' ') (hlu : lookupChar tbl c = some pat) :
    encodeString tbl p false (String.mk [c]) = encodePattern p.dotMs pat := by
  have hsplit : splitWords [c] = [[c]] := by
    simp [splitWords, hc]
  unfold encodeString
  rw [show (String.mk [c]).toList = [c] from rfl, hsplit]
  unfold encodeTextP
  rw [List.map_singleton]
  unfold encodeWord
  rw [charChunks_single tbl p.dotMs false c pat hlu]
  rfl

/-- Claim C1: for every character in the active CodeTable (American Morse or
International), encoding at a fixed noise-free speed and decoding the
resulting duration sequence yields the character again; in particular
encode("SOS") at dot=60ms yields the documented dash/dot pattern with
correct spacing, and decoding that exact sequence returns "SOS". -/
theorem c1_roundtrip :
    (∀ tbl : CodeTable, tbl = americanTable ∨ tbl = internationalTable →
      ∀ d : Nat, 0 < d → d ≤ 4096 →
      ∀ cp ∈ tbl,
        decodeAPI tbl d (encodeString tbl ⟨d, 1, none⟩ false (String.mk [cp.1])) =
          .ok [cp.1])
  ∧ encodeString internationalTable ⟨60, 1, none⟩ false "SOS" =
      [60, -60, 60, -60, 60, -180, 180, -60, 180, -60, 180, -180, 60, -60, 60, -60, 60]
  ∧ decodeAPI internationalTable 60
      [60, -60, 60, -60, 60, -180, 180, -60, 180, -60, 180, -180, 60, -60, 60, -60, 60] =
      .ok ['S', 'O', 'S'] := by
  refine ⟨?_, by rfl, by rfl⟩
  intro tbl htbl d hd hle cp hmem
  have hfacts : cp.1 ≠ ' ' ∧ lookupChar tbl cp.1 = some cp.2 ∧
      reverseLookup tbl cp.2 = some cp.1 ∧ cp.2 ≠ [] := by
    rcases htbl with rfl | rfl
    · exact amer_facts cp hmem
    · exact intl_facts cp hmem
  rw [encodeString_single tbl ⟨d, 1, none⟩ cp.1 cp.2 hfacts.1 hfacts.2.1]
  exact decodeAPI_encodePattern tbl d hd hle cp.2 cp.1 hfacts.2.2.2 hfacts.2.2.1

/-- Witness for the round-trip theorem at table = International, dot = 60ms,
character 'E'. -/
theorem c1_roundtrip_witness :
    decodeAPI internationalTable 60
      (encodeString internationalTable ⟨60, 1, none⟩ false
        (String.mk [('E', [MorseElem.dot]).1])) = .ok [('E', [MorseElem.dot]).1] :=
  c1_roundtrip.1 internationalTable (Or.inr rfl) 60 (by decide) (by decide)
    ('E', [MorseElem.dot]) (by decide)

/-- Claim C2: the Decoder classifies each incoming duration's magnitude
relative to the running dot estimate: a mark of at most 2x the estimate is a
dot, above 2x and at most 5x a dash, longer marks are flagged as probable
garble; a space of at most 2x is an intra-character gap, up to 6x an
inter-character gap that flushes the current symbol, and a longer space
flushes the symbol and emits a word boundary. -/
theorem c2_classification (tbl : CodeTable) (s : DecoderState) :
    (∀ m : Nat, 0 < m → m ≤ 2 * s.est →
      decodeStep tbl s ((m : Nat) : Int) =
        ({ s with est := updateEstimate s.est m, acc := s.acc ++ [.dot] }, []))
  ∧ (∀ m : Nat, 2 * s.est < m → m ≤ 5 * s.est →
      decodeStep tbl s ((m : Nat) : Int) =
        ({ s with est := updateEstimate s.est (m / 3), acc := s.acc ++ [.dash] }, []))
  ∧ (∀ m : Nat, 5 * s.est < m →
      decodeStep tbl s ((m : Nat) : Int) = ({ s with garbled := true }, []))
  ∧ (∀ n : Nat, n ≤ 2 * s.est →
      decodeStep tbl s (-((n : Nat) : Int)) = (s, []))
  ∧ (∀ n : Nat, 2 * s.est < n → n ≤ 6 * s.est →
      decodeStep tbl s (-((n : Nat) : Int)) = flushSymbol tbl s)
  ∧ (∀ n : Nat, 6 * s.est < n →
      decodeStep tbl s (-((n : Nat) : Int)) =
        ((flushSymbol tbl s).1, (flushSymbol tbl s).2 ++ [' '])) := by
  refine ⟨?_, ?_, ?_, ?_, ?_, ?_⟩
  · intro m h0 h2
    exact decodeStep_mark_dot tbl s m h0 (by unfold classifyMark; rw [if_pos h2])
  · intro m h2 h5
    exact decodeStep_mark_dash tbl s m (by omega)
      (by unfold classifyMark; rw [if_neg (by omega), if_pos h5])
  · intro m h5
    exact decodeStep_mark_garble tbl s m (by omega)
      (by unfold classifyMark; rw [if_neg (by omega), if_neg (by omega)])
  · intro n h2
    exact decodeStep_space_intra tbl s n (by unfold classifySpace; rw [if_pos h2])
  · intro n h2 h6
    exact decodeStep_space_char tbl s n
      (by unfold classifySpace; rw [if_neg (by omega), if_pos h6])
  · intro n h6
    exact decodeStep_space_word tbl s n
      (by unfold classifySpace; rw [if_neg (by omega), if_neg (by omega)])

/-- Witness for the classification theorem at estimate 100ms, exercising
every branch: marks of 150/350/600ms and spaces of 120/300/700ms. -/
theorem c2_classification_witness :
    decodeStep internationalTable (initState 100) ((150 : Nat) : Int) =
      (⟨updateEstimate 100 150, [MorseElem.dot], false⟩, [])
  ∧ decodeStep internationalTable (initState 100) ((350 : Nat) : Int) =
      (⟨updateEstimate 100 (350 / 3), [MorseElem.dash], false⟩, [])
  ∧ decodeStep internationalTable (initState 100) ((600 : Nat) : Int) =
      (⟨100, [], true⟩, [])
  ∧ decodeStep internationalTable (initState 100) (-((120 : Nat) : Int)) =
      (initState 100, [])
  ∧ decodeStep internationalTable (initState 100) (-((300 : Nat) : Int)) =
      flushSymbol internationalTable (initState 100)
  ∧ decodeStep internationalTable (initState 100) (-((700 : Nat) : Int)) =
      ((flushSymbol internationalTable (initState 100)).1,
       (flushSymbol internationalTable (initState 100)).2 ++ [' ']) := by
  have h := c2_classification internationalTable (initState 100)
  exact ⟨h.1 150 (by decide) (by decide),
         h.2.1 350 (by decide) (by decide),
         h.2.2.1 600 (by decide),
         h.2.2.2.1 120 (by decide),
         h.2.2.2.2.1 300 (by decide) (by decide),
         h.2.2.2.2.2 700 (by decide)⟩

/-- Claim C3: after every accepted dot or dash the Decoder updates the
running dot estimate as an exponentially weighted blend of the prior
estimate and the observed element's implied dot length, and the update is
bounded: no single element moves the estimate by more than half of its
previous value. -/
theorem c3_bounded_update (tbl : CodeTable) :
    (∀ (s : DecoderState) (m : Nat), 0 < m → classifyMark s.est m = .dotMark →
      (decodeStep tbl s ((m : Nat) : Int)).1.est = updateEstimate s.est m)
  ∧ (∀ (s : DecoderState) (m : Nat), 0 < m → classifyMark s.est m = .dashMark →
      (decodeStep tbl s ((m : Nat) : Int)).1.est = updateEstimate s.est (m / 3))
  ∧ (∀ est obs : Nat,
      est - est / 2 ≤ updateEstimate est obs ∧ updateEstimate est obs ≤ est + est / 2)
  ∧ (∀ est obs : Nat, est - est / 2 ≤ blendEstimate est obs →
      blendEstimate est obs ≤ est + est / 2 →
      updateEstimate est obs = blendEstimate est obs) := by
  refine ⟨?_, ?_, ?_, ?_⟩
  · intro s m h0 hc
    rw [decodeStep_mark_dot tbl s m h0 hc]
  · intro s m h0 hc
    rw [decodeStep_mark_dash tbl s m h0 hc]
  · intro est obs
    unfold updateEstimate clampDelta
    omega
  · intro est obs h1 h2
    unfold updateEstimate clampDelta
    omega

/-- Witness for the bounded-update theorem: a 150ms dot against a 100ms
estimate, an outlier observation of 10000ms, and an in-range blend. -/
theorem c3_bounded_update_witness :
    (decodeStep internationalTable (initState 100) ((150 : Nat) : Int)).1.est =
      updateEstimate 100 150
  ∧ (100 - 100 / 2 ≤ updateEstimate 100 10000 ∧
     updateEstimate 100 10000 ≤ 100 + 100 / 2)
  ∧ updateEstimate 100 130 = blendEstimate 100 130 := by
  have h := c3_bounded_update internationalTable
  exact ⟨h.1 (initState 100) 150 (by decide) (by decide),
         h.2.2.1 100 10000,
         h.2.2.2 100 130 (by decide) (by decide)⟩

/-- Claim C4: if the Decoder holds a partially accumulated character and the
elapsed time since the last element exceeds the idle-flush threshold (a
bounded multiple of the current dot estimate), the partial character is
emitted exactly once and the state resets to Idle (empty accumulator); a
second idle check emits nothing. -/
theorem c4_idle_flush (tbl : CodeTable) (s : DecoderState)
    (hacc : s.acc ≠ []) (hg : s.garbled = false) :
    ∀ elapsed : Nat, idleThreshold s.est < elapsed →
      (checkIdle tbl elapsed s).2.length = 1
      ∧ (checkIdle tbl elapsed s).1.acc = []
      ∧ (checkIdle tbl elapsed s).1.garbled = false
      ∧ (checkIdle tbl elapsed s).1.est = s.est
      ∧ ∀ elapsed2 : Nat, (checkIdle tbl elapsed2 (checkIdle tbl elapsed s).1).2 = [] := by
  intro elapsed helapsed
  have hcond : (s.acc ≠ [] ∨ s.garbled = true) ∧ idleThreshold s.est < elapsed :=
    ⟨Or.inl hacc, helapsed⟩
  have hflush : flushSymbol tbl s = ({ s with acc := [], garbled := false },
      match reverseLookup tbl s.acc with
      | some c => [c]
      | none => [placeholderChar]) := by
    unfold flushSymbol
    rw [if_neg (by simp [hacc]), if_neg (by simp [hg])]
    cases reverseLookup tbl s.acc <;> rfl
  have hstep : checkIdle tbl elapsed s = flushSymbol tbl s := by
    unfold checkIdle
    rw [if_pos hcond]
  rw [hstep, hflush]
  refine ⟨?_, rfl, rfl, rfl, ?_⟩
  · cases reverseLookup tbl s.acc <;> rfl
  · intro elapsed2
    unfold checkIdle
    rw [if_neg (by simp)]

/-- Witness for the idle-flush theorem: one accumulated dot at estimate
100ms, idle for 5000ms. -/
theorem c4_idle_flush_witness :
    (checkIdle internationalTable 5000 ⟨100, [MorseElem.dot], false⟩).2.length = 1
  ∧ (checkIdle internationalTable 5000 ⟨100, [MorseElem.dot], false⟩).1.acc = []
  ∧ (checkIdle internationalTable 5000 ⟨100, [MorseElem.dot], false⟩).1.garbled = false
  ∧ (checkIdle internationalTable 5000 ⟨100, [MorseElem.dot], false⟩).1.est = 100
  ∧ ∀ elapsed2 : Nat,
      (checkIdle internationalTable elapsed2
        (checkIdle internationalTable 5000 ⟨100, [MorseElem.dot], false⟩).1).2 = [] := by
  have h := c4_idle_flush internationalTable ⟨100, [MorseElem.dot], false⟩
    (by decide) rfl 5000 (by decide)
  exact ⟨h.1, h.2.1, h.2.2.1, h.2.2.2.1, h.2.2.2.2⟩

/-- Claim C5: decoding is total over malformed input: the API errs with
`InvalidDuration` exactly when the stream contains a zero-magnitude
duration (zero is never a sentinel value); otherwise it returns output;
an element pattern with no CodeTable match flushes as the placeholder
glyph; and decoding composes over stream concatenation, so it continues
after any garbled symbol. -/
theorem c5_total_decoding :
    (∀ (tbl : CodeTable) (est0 : Nat) (ds : List Int),
      decodeAPI tbl est0 ds = .error .invalidDuration ↔ (0 : Int) ∈ ds)
  ∧ (∀ (tbl : CodeTable) (est0 : Nat) (ds : List Int), (0 : Int) ∉ ds →
      ∃ out, decodeAPI tbl est0 ds = .ok out)
  ∧ isSentinel 0 = false
  ∧ (∀ (tbl : CodeTable) (s : DecoderState), s.garbled = false → s.acc ≠ [] →
      reverseLookup tbl s.acc = none →
      flushSymbol tbl s = ({ s with acc := [], garbled := false }, [placeholderChar]))
  ∧ (∀ (tbl : CodeTable) (s : DecoderState) (l1 l2 : List Int),
      decodeRun tbl s (l1 ++ l2) =
        ((decodeRun tbl (decodeRun tbl s l1).1 l2).1,
         (decodeRun tbl s l1).2 ++ (decodeRun tbl (decodeRun tbl s l1).1 l2).2)) := by
  refine ⟨?_, ?_, by decide, ?_, ?_⟩
  · intro tbl est0 ds
    unfold decodeAPI
    by_cases h : ds.any (fun x => x == 0) = true
    · rw [if_pos h]
      rcases List.any_eq_true.mp h with ⟨x, hx, hx0⟩
      rw [beq_iff_eq] at hx0
      rw [hx0] at hx
      exact ⟨fun _ => hx, fun _ => rfl⟩
    · rw [if_neg h]
      constructor
      · intro habs; exact absurd habs (by simp)
      · intro hmem
        exact absurd (List.any_eq_true.mpr ⟨0, hmem, by simp⟩) h
  · intro tbl est0 ds hmem
    refine ⟨(decodeFinish tbl (initState est0) (ds.filter (fun x => !isSentinel x))).2, ?_⟩
    unfold decodeAPI
    rw [if_neg (fun h => hmem (by
      rcases List.any_eq_true.mp h with ⟨x, hx, hx0⟩
      rw [beq_iff_eq] at hx0
      rw [hx0] at hx
      exact hx))]
  · intro tbl s hg hacc hrl
    unfold flushSymbol
    rw [if_neg (by simp [hacc]), if_neg (by simp [hg]), hrl]
  · intro tbl s l1 l2
    exact decodeRun_append tbl l1 l2 s

/-- Witness for the totality theorem: a stream with no zero durations
decodes to some output, and a seven-dash pattern (no table match) flushes
as the placeholder glyph. -/
theorem c5_total_decoding_witness :
    (∃ out, decodeAPI internationalTable 60 [60, -60, 60] = .ok out)
  ∧ flushSymbol internationalTable
      ⟨60, [MorseElem.dash, MorseElem.dash, MorseElem.dash, MorseElem.dash,
            MorseElem.dash, MorseElem.dash, MorseElem.dash], false⟩ =
      (⟨60, [], false⟩, [placeholderChar]) := by
  refine ⟨c5_total_decoding.2.1 internationalTable 60 [60, -60, 60] (by decide), ?_⟩
  exact c5_total_decoding.2.2.2.1 internationalTable
    ⟨60, [MorseElem.dash, MorseElem.dash, MorseElem.dash, MorseElem.dash,
          MorseElem.dash, MorseElem.dash, MorseElem.dash], false⟩
    rfl (by decide) (by decide)

/-- Claim C8: `lookup(symbolSystem, character)` returns an Option, failing
exactly for characters with no mapping in the table; the Encoder skips an
unmapped character, continuing with the remaining text, and in strict mode
emits the diagnostic marker duration in the skipped character's place. -/
theorem c8_lookup_skip :
    (∀ (tbl : CodeTable) (c : Char),
      lookupChar tbl c = none ↔ ∀ cp ∈ tbl, cp.1 ≠ c)
  ∧ (∀ (tbl : CodeTable) (d : Nat) (c : Char) (w : List Char),
      lookupChar tbl c = none →
      charChunks tbl d false (c :: w) = charChunks tbl d false w)
  ∧ (∀ (tbl : CodeTable) (d : Nat) (c : Char) (w : List Char),
      lookupChar tbl c = none →
      charChunks tbl d true (c :: w) = [markerDuration] :: charChunks tbl d true w)
  ∧ (∀ (tbl : CodeTable) (p : SpeedProfile) (c : Char) (w : List Char),
      lookupChar tbl c = none →
      encodeWord tbl p false (c :: w) = encodeWord tbl p false w) := by
  refine ⟨?_, ?_, ?_, ?_⟩
  · intro tbl c
    unfold lookupChar
    rw [Option.map_eq_none', List.find?_eq_none]
    constructor
    · intro h cp hcp
      have := h cp hcp
      simpa using this
    · intro h cp hcp
      simpa using h cp hcp
  · intro tbl d c w h
    simp [charChunks, List.filterMap_cons, h]
  · intro tbl d c w h
    simp [charChunks, List.filterMap_cons, h]
  · intro tbl p c w h
    unfold encodeWord
    rw [show charChunks tbl p.dotMs false (c :: w) = charChunks tbl p.dotMs false w from
      by simp [charChunks, List.filterMap_cons, h]]

/-- Witness for the lookup/skip theorem: the tilde character is unmapped in
the International table, is skipped in plain mode, and is replaced by the
marker duration in strict mode. -/
theorem c8_lookup_skip_witness :
    (lookupChar internationalTable '~' = none ↔
      ∀ cp ∈ internationalTable, cp.1 ≠ '~')
  ∧ charChunks internationalTable 60 false ['~', 'S'] =
      charChunks internationalTable 60 false ['S']
  ∧ charChunks internationalTable 60 true ['~', 'S'] =
      [markerDuration] :: charChunks internationalTable 60 true ['S']
  ∧ encodeWord internationalTable ⟨60, 1, none⟩ false ['~', 'S'] =
      encodeWord internationalTable ⟨60, 1, none⟩ false ['S'] := by
  exact ⟨c8_lookup_skip.1 internationalTable '~',
         c8_lookup_skip.2.1 internationalTable 60 '~' ['S'] (by rfl),
         c8_lookup_skip.2.2.1 internationalTable 60 '~' ['S'] (by rfl),
         c8_lookup_skip.2.2.2 internationalTable ⟨60, 1, none⟩ '~' ['S'] (by rfl)⟩

/-! ### Farnsworth spacing lemmas -/

lemma joinSep_map (g : Int → Int) (sep : Int) (l : List (List Int)) :
    (joinSep sep l).map g = joinSep (g sep) (l.map (fun ch => ch.map g)) := by
  induction l with
  | nil => simp [joinSep]
  | cons x rest ih =>
      cases rest with
      | nil => simp [joinSep]
      | cons y t =>
          show (x ++ sep :: joinSep sep (y :: t)).map g =
            (x.map g) ++ g sep :: joinSep (g sep) ((y :: t).map (fun ch => ch.map g))
          rw [List.map_append, List.map_cons, ih]

lemma map_id_of_mem {g : Int → Int} : ∀ l : List Int,
    (∀ x ∈ l, g x = x) → l.map g = l := by
  intro l
  induction l with
  | nil => intro _; rfl
  | cons x rest ih =>
      intro h
      simp only [List.map_cons, h x (by simp)]
      rw [ih (fun y hy => h y (by simp [hy]))]

lemma mem_joinSep (sep : Int) : ∀ (l : List (List Int)) (x : Int),
    x ∈ joinSep sep l → x = sep ∨ ∃ ch ∈ l, x ∈ ch := by
  intro l
  induction l with
  | nil => simp [joinSep]
  | cons a rest ih =>
      intro x hx
      cases rest with
      | nil =>
          simp only [joinSep] at hx
          exact Or.inr ⟨a, by simp, hx⟩
      | cons b t =>
          simp only [joinSep, List.mem_append, List.mem_cons] at hx
          rcases hx with ha | rfl | hx
          · exact Or.inr ⟨a, by simp, ha⟩
          · exact Or.inl rfl
          · rcases ih x hx with h | ⟨ch, hch, hxch⟩
            · exact Or.inl h
            · exact Or.inr ⟨ch, by simp [hch], hxch⟩

lemma mem_charChunks (tbl : CodeTable) (d : Nat) (strict : Bool)
    (w : List Char) (ch : List Int) (hch : ch ∈ charChunks tbl d strict w) :
    ch = [markerDuration] ∨ ∃ pat, ch = encodePattern d pat := by
  unfold charChunks at hch
  rcases List.mem_filterMap.mp hch with ⟨c, _, hf⟩
  cases hlu : lookupChar tbl c with
  | some pat =>
      rw [hlu] at hf
      exact Or.inr ⟨pat, (Option.some_inj.mp hf).symm⟩
  | none =>
      rw [hlu] at hf
      cases strict with
      | true => exact Or.inl (Option.some_inj.mp hf).symm
      | false => exact absurd hf (by simp)

lemma mem_encodeWord (tbl : CodeTable) (p : SpeedProfile) (strict : Bool)
    (w : List Char) (x : Int) (hx : x ∈ encodeWord tbl p strict w) :
    x = charSpaceDur p ∨ x = markerDuration ∨ x = -((p.dotMs : Nat) : Int) ∨
      ∃ e, x = elemMark p.dotMs e := by
  unfold encodeWord at hx
  rcases mem_joinSep (charSpaceDur p) _ x hx with h | ⟨ch, hch, hxch⟩
  · exact Or.inl h
  · rcases mem_charChunks tbl p.dotMs strict w ch hch with rfl | ⟨pat, rfl⟩
    · right; left
      simpa using hxch
    · rcases mem_encodePattern p.dotMs pat x hxch with h | h
      · exact Or.inr (Or.inr (Or.inl h))
      · exact Or.inr (Or.inr (Or.inr h))

lemma encodeWord_mem_ne_wordSpace (tbl : CodeTable) (d csf : Nat)
    (hd : 0 < d) (w : List Char) (x : Int)
    (hx : x ∈ encodeWord tbl ⟨d, csf, none⟩ false w) :
    x ≠ wordSpaceDur ⟨d, csf, none⟩ := by
  have hws : wordSpaceDur ⟨d, csf, none⟩ = -((7 * d : Nat) : Int) := by
    simp [wordSpaceDur, farnsworthExtra]
  rw [hws]
  rcases mem_encodeWord tbl ⟨d, csf, none⟩ false w x hx with h | h | h | ⟨e, h⟩
  · rw [h]
    simp only [charSpaceDur]
    intro habs
    have h7 : 3 * csf * d = 7 * d := by exact_mod_cast neg_inj.mp habs
    have h37 : 3 * csf = 7 := Nat.eq_of_mul_eq_mul_right hd h7
    omega
  · rw [h]
    unfold markerDuration
    omega
  · rw [h]
    dsimp only
    omega
  · rw [h]
    unfold elemMark
    dsimp only
    have hu : elemUnits e = 1 ∨ elemUnits e = 3 := by cases e <;> simp [elemUnits]
    rcases hu with h1 | h1 <;> rw [h1] <;> omega

lemma filter_pos_map (g : Int → Int) (hpos : ∀ x : Int, 0 < x → g x = x)
    (hneg : ∀ x : Int, ¬ 0 < x → ¬ 0 < g x) : ∀ l : List Int,
    (l.map g).filter (fun x => decide (0 < x)) = l.filter (fun x => decide (0 < x)) := by
  intro l
  induction l with
  | nil => rfl
  | cons x t ih =>
      rw [List.map_cons, List.filter_cons, List.filter_cons]
      by_cases h : 0 < x
      · rw [hpos x h, ih]
      · have h2 := hneg x h
        rw [ih, decide_eq_false h, decide_eq_false h2]
        simp

/-- Claim C7 (amended): with Farnsworth enabled, encoding stretches only
spacing and only at word boundaries: the encoded stream is the
non-Farnsworth stream with each inter-word space replaced by the stretched
one; every mark duration is identical to the non-Farnsworth encoding; and
the stretch equals the character period at the Farnsworth text speed minus
the character period at the base character speed. -/
theorem c7_farnsworth (tbl : CodeTable) (d csf tw : Nat) (hd : 0 < d)
    (ws : List (List Char)) :
    encodeTextP tbl ⟨d, csf, some tw⟩ false ws =
      (encodeTextP tbl ⟨d, csf, none⟩ false ws).map
        (fun x => if x = wordSpaceDur ⟨d, csf, none⟩
                  then wordSpaceDur ⟨d, csf, some tw⟩ else x)
  ∧ (encodeTextP tbl ⟨d, csf, some tw⟩ false ws).filter (fun x => decide (0 < x)) =
      (encodeTextP tbl ⟨d, csf, none⟩ false ws).filter (fun x => decide (0 < x))
  ∧ wordSpaceDur ⟨d, csf, some tw⟩ =
      wordSpaceDur ⟨d, csf, none⟩ - ((farnsworthExtra ⟨d, csf, some tw⟩ : Nat) : Int)
  ∧ farnsworthExtra ⟨d, csf, some tw⟩ = charPeriodMs tw - charPeriodMs (wpmOfDot d) := by
  have hws0 : wordSpaceDur ⟨d, csf, none⟩ = -((7 * d : Nat) : Int) := by
    simp [wordSpaceDur, farnsworthExtra]
  have hchunks : ∀ w ∈ ws,
      (encodeWord tbl ⟨d, csf, none⟩ false w).map
        (fun x => if x = wordSpaceDur ⟨d, csf, none⟩
                  then wordSpaceDur ⟨d, csf, some tw⟩ else x) =
        encodeWord tbl ⟨d, csf, none⟩ false w := by
    intro w _
    apply map_id_of_mem
    intro x hx
    exact if_neg (encodeWord_mem_ne_wordSpace tbl d csf hd w x hx)
  have henc : encodeWord tbl ⟨d, csf, some tw⟩ false = encodeWord tbl ⟨d, csf, none⟩ false :=
    rfl
  have hmap : encodeTextP tbl ⟨d, csf, some tw⟩ false ws =
      (encodeTextP tbl ⟨d, csf, none⟩ false ws).map
        (fun x => if x = wordSpaceDur ⟨d, csf, none⟩
                  then wordSpaceDur ⟨d, csf, some tw⟩ else x) := by
    unfold encodeTextP
    rw [joinSep_map, if_pos rfl, henc, List.map_map]
    congr 1
    apply List.map_congr_left
    intro w hw
    exact (hchunks w hw).symm
  refine ⟨hmap, ?_, ?_, rfl⟩
  · rw [hmap]
    apply filter_pos_map
    · intro x hx
      apply if_neg
      rw [hws0]
      omega
    · intro x hx
      by_cases hxe : x = wordSpaceDur ⟨d, csf, none⟩
      · rw [if_pos hxe]
        unfold wordSpaceDur
        omega
      · rw [if_neg hxe]
        exact hx
  · unfold wordSpaceDur farnsworthExtra
    dsimp only
    push_cast
    ring

/-- Witness for the Farnsworth theorem at dot = 60ms (20 wpm character
speed), text speed 10 wpm, two one-letter words. -/
theorem c7_farnsworth_witness :
    encodeTextP internationalTable ⟨60, 1, some 10⟩ false [['E'], ['E']] =
      (encodeTextP internationalTable ⟨60, 1, none⟩ false [['E'], ['E']]).map
        (fun x => if x = wordSpaceDur ⟨60, 1, none⟩
                  then wordSpaceDur ⟨60, 1, some 10⟩ else x)
  ∧ (encodeTextP internationalTable ⟨60, 1, some 10⟩ false [['E'], ['E']]).filter
        (fun x => decide (0 < x)) =
      (encodeTextP internationalTable ⟨60, 1, none⟩ false [['E'], ['E']]).filter
        (fun x => decide (0 < x))
  ∧ wordSpaceDur ⟨60, 1, some 10⟩ =
      wordSpaceDur ⟨60, 1, none⟩ - ((farnsworthExtra ⟨60, 1, some 10⟩ : Nat) : Int)
  ∧ farnsworthExtra ⟨60, 1, some 10⟩ =
      charPeriodMs 10 - charPeriodMs (wpmOfDot 60) :=
  c7_farnsworth internationalTable 60 1 10 (by decide) [['E'], ['E']]

/-- Counterexample to Claim C7 as stated: at dot = 60ms (base character
speed 20 wpm) and Farnsworth text speed 10 wpm, the extra trailing space is
600ms = charPeriod(textSpeed) - charPeriod(baseSpeed); it does not equal
the claim's charPeriod(baseSpeed) - charPeriod(textSpeed), which is -600ms;
the stretched word gap is -1020ms, observable in the encoded stream. -/
theorem c7_farnsworth_cex :
    ((farnsworthExtra ⟨60, 1, some 10⟩ : Nat) : Int) =
      ((charPeriodMs 10 : Nat) : Int) - ((charPeriodMs (wpmOfDot 60) : Nat) : Int)
  ∧ ¬(((farnsworthExtra ⟨60, 1, some 10⟩ : Nat) : Int) =
      ((charPeriodMs (wpmOfDot 60) : Nat) : Int) - ((charPeriodMs 10 : Nat) : Int))
  ∧ encodeTextP internationalTable ⟨60, 1, some 10⟩ false [['E'], ['E']] =
      [60, -1020, 60]
  ∧ wordSpaceDur ⟨60, 1, some 10⟩ = -(7 * 60 + 600) := by
  refine ⟨by decide, by decide, by rfl, by decide⟩

/-! ### WireClient model -/

/-- Modelled from the spec: the WireSession connection state. -/
inductive ConnectionState : Type
  | Disconnected : ConnectionState
  | Connecting : ConnectionState
  | Connected : ConnectionState
  deriving DecidableEq, Repr

/-- Modelled from the spec: the WireClient state: the wire number, the
connection state, a count of connection attempts actually made, the
durations driven to the local Decoder/InstrumentPort echo path, and the
durations sent to the wire. -/
structure WireClient where
  wireNumber : Nat
  connState : ConnectionState
  connectAttempts : Nat
  localSound : List Int
  wireSent : List Int
  deriving DecidableEq, Repr

/-- Modelled from the spec: events driving the WireClient state machine. -/
inductive WireEvent : Type
  | connectRequest : WireEvent
  | socketConnected : WireEvent
  | transportError : WireEvent
  | closeRequest : WireEvent
  | sendText : List (List Char) → WireEvent

/-- Modelled from the spec: one WireClient transition.  Wire number zero
means operate fully local: no connection is ever attempted; `sendText`
always drives the local Decoder/InstrumentPort echo path, and additionally
the wire when connected. -/
def wireStep (tbl : CodeTable) (p : SpeedProfile) (w : WireClient)
    (e : WireEvent) : WireClient :=
  match e with
  | .connectRequest =>
      if w.wireNumber = 0 then w
      else { w with connState := .Connecting,
                    connectAttempts := w.connectAttempts + 1 }
  | .socketConnected =>
      if w.connState = .Connecting then { w with connState := .Connected } else w
  | .transportError =>
      { w with connState := .Disconnected }
  | .closeRequest =>
      { w with connState := .Disconnected }
  | .sendText ws =>
      { w with localSound := w.localSound ++ encodeTextP tbl p false ws,
               wireSent := if w.connState = .Connected
                           then w.wireSent ++ encodeTextP tbl p false ws
                           else w.wireSent }

/-- A freshly created WireClient: disconnected, no attempts, nothing sent. -/
def initWire (n : Nat) : WireClient := ⟨n, .Disconnected, 0, [], []⟩

lemma wire_zero_invariant (tbl : CodeTable) (p : SpeedProfile) :
    ∀ (evs : List WireEvent) (w : WireClient), w.wireNumber = 0 →
      w.connState = .Disconnected → w.connectAttempts = 0 →
      (evs.foldl (wireStep tbl p) w).wireNumber = 0 ∧
      (evs.foldl (wireStep tbl p) w).connState = .Disconnected ∧
      (evs.foldl (wireStep tbl p) w).connectAttempts = 0 := by
  intro evs
  induction evs with
  | nil => intro w h0 hc ha; exact ⟨h0, hc, ha⟩
  | cons e rest ih =>
      intro w h0 hc ha
      rw [List.foldl_cons]
      apply ih
      · cases e <;> simp [wireStep, h0, hc, ha]
      · cases e <;> simp [wireStep, h0, hc, ha]
      · cases e <;> simp [wireStep, h0, hc, ha]

/-- Claim C6: a WireClient created with wire number zero is Disconnected in
every reachable state: it never transitions to Connecting or Connected,
never attempts a connection, and `sendText` still drives the local
Decoder/InstrumentPort echo path. -/
theorem c6_wire_zero_local (tbl : CodeTable) (p : SpeedProfile)
    (evs : List WireEvent) (ws : List (List Char)) :
    (evs.foldl (wireStep tbl p) (initWire 0)).connState = .Disconnected
  ∧ (evs.foldl (wireStep tbl p) (initWire 0)).connectAttempts = 0
  ∧ (wireStep tbl p (evs.foldl (wireStep tbl p) (initWire 0)) (.sendText ws)).localSound =
      (evs.foldl (wireStep tbl p) (initWire 0)).localSound ++ encodeTextP tbl p false ws
  ∧ (wireStep tbl p (evs.foldl (wireStep tbl p) (initWire 0)) (.sendText ws)).connState =
      .Disconnected := by
  have h := wire_zero_invariant tbl p evs (initWire 0) rfl rfl rfl
  refine ⟨h.2.1, h.2.2, rfl, ?_⟩
  simp [wireStep, h.2.1]

/-! ### MKOB launcher (embedded from `MKOB.pyw`, version 4.1.4)

The launcher wraps its whole startup and main loop in
`try/except KeyboardInterrupt/except Exception/finally`.  The `finally`
block runs `if mkobwin: mkobwin.exit()` and prints the farewell line
`~73`; if the exception struck before `mkobwin` was bound, evaluating
`mkobwin` in `finally` raises `NameError`, which replaces the in-flight
`SystemExit` and terminates the process with status 1. -/

/-- An exception escaping the launcher's `try` body. -/
inductive BodyExc : Type
  | kbInterrupt : BodyExc
  | exc : String → BodyExc
  deriving DecidableEq, Repr

/-- A launcher run scenario: whether configuration loading raises, whether
window construction raises, which exception (if any) escapes the main
loop, and how many exceptions occur inside GUI callbacks during normal
operation.  Callback exceptions are absorbed by the toolkit's main loop and
never escape; that behavior is modelled from the spec, since the window
code is not among the available sources. -/
structure LauncherScenario where
  configExc : Option String
  windowExc : Option String
  mainloopExc : Option BodyExc
  callbackFailures : Nat
  deriving DecidableEq, Repr

/-- Observable outcome of one launcher run. -/
structure LauncherResult where
  output : List String
  winExitCalled : Bool
  engineStarted : Bool
  exitCode : Nat
  deriving DecidableEq, Repr

/-- The MKOB launcher control flow, embedded from `MKOB.pyw`:
`process_config_args`, window construction, `mkobwin.start()` and
`root.mainloop()` inside `try`; `except KeyboardInterrupt` prints a newline
and exits 0; `except Exception as ex` prints `Error: ` followed by the
message and exits 1; `finally` calls `mkobwin.exit()` and prints the
farewell line when `mkobwin` is bound, else raises `NameError` (exit 1). -/
def runLauncher (sc : LauncherScenario) : LauncherResult :=
  match sc.configExc with
  | some m =>
      { output := ["Error: " ++ m], winExitCalled := false,
        engineStarted := false, exitCode := 1 }
  | none =>
      match sc.windowExc with
      | some m =>
          { output := ["Error: " ++ m], winExitCalled := false,
            engineStarted := false, exitCode := 1 }
      | none =>
          match sc.mainloopExc with
          | none =>
              { output := ["~73"], winExitCalled := true,
                engineStarted := true, exitCode := 0 }
          | some .kbInterrupt =>
              { output := ["", "~73"], winExitCalled := true,
                engineStarted := true, exitCode := 0 }
          | some (.exc m) =>
              { output := ["Error: " ++ m, "~73"], winExitCalled := true,
                engineStarted := true, exitCode := 1 }

/-- Claim C9: when configuration loading or validation fails at startup,
the launcher reports the error and exits nonzero (status 1) before the
engine starts; when startup succeeds, no number of failures during normal
operation (absorbed in the main loop) is fatal: the process runs to a
normal exit with status 0. -/
theorem c9_startup_abort :
    (∀ (m : String) (wexc : Option String) (rexc : Option BodyExc) (cb : Nat),
      (runLauncher ⟨some m, wexc, rexc, cb⟩).engineStarted = false
      ∧ (runLauncher ⟨some m, wexc, rexc, cb⟩).exitCode = 1
      ∧ ("Error: " ++ m) ∈ (runLauncher ⟨some m, wexc, rexc, cb⟩).output)
  ∧ (∀ cb : Nat, runLauncher ⟨none, none, none, cb⟩ =
      { output := ["~73"], winExitCalled := true, engineStarted := true,
        exitCode := 0 }) := by
  exact ⟨fun m wexc rexc cb => ⟨rfl, rfl, by simp [runLauncher]⟩, fun cb => rfl⟩

/-- Claim C10: a KeyboardInterrupt reaching the top level after the main
window exists triggers a normal shutdown: the window's exit is invoked, the
farewell line "~73" is printed, and the process exits with status 0; any
other exception reaching the top level prints the error line and exits with
status 1. -/
theorem c10_interrupt_shutdown :
    (∀ cb : Nat, runLauncher ⟨none, none, some .kbInterrupt, cb⟩ =
      { output := ["", "~73"], winExitCalled := true, engineStarted := true,
        exitCode := 0 })
  ∧ (∀ (m : String) (cb : Nat), runLauncher ⟨none, none, some (.exc m), cb⟩ =
      { output := ["Error: " ++ m, "~73"], winExitCalled := true,
        engineStarted := true, exitCode := 1 }) := by
  exact ⟨fun cb => rfl, fun m cb => rfl⟩

end PyKOB
